import Mathlib

/-!
Verification development for the Groq-Python-agent script (`xgroq_python.py`).

The script drives a generate → run → repair loop: `generate_code` sanitizes a
raw model response into executable Python source plus a line metric, and
`test_code` persists a candidate (archiving the previous attempt), runs it
through an interpreter subprocess, and classifies success.  The main loop
repeats generation on failure under an attempt budget and a cumulative
generation-time budget.

The development below is a shallow embedding of that code:

* Text is modelled at the character level (`List Char`); `pyLines` models
  Python `str.splitlines()` (with `\n` as line terminator), `joinNL` models
  `"\n".join(...)`, and `pyStrip` models `str.strip()`.
* The sanitization pipeline of `generate_code` (fence search, extraction,
  neutralization, backtick pass, `loc`, metadata header) is translated
  line-for-line from the source.
* `test_code` is modelled over an explicit file-system state
  (`String → Option String`); the interpreter subprocess is an external
  collaborator represented by its `(returncode, stdout, stderr)` result.
* The main refinement loop is a fuel-indexed step function `runLoop` over a
  `LoopState` that mirrors the script's mutable variables, extended with ghost
  counters (generation calls, execution calls, archive copies, and the value of
  `total_gen_time` at the moment each generation call is issued) that record
  the trace of external calls.
-/

set_option maxHeartbeats 1000000
set_option linter.unusedVariables false

namespace Groq

/-! ## Character-level models of the Python string primitives -/

/-- Model of Python `"\n".join(lines)` at the character level: the given lines
joined with a single newline character between consecutive lines. -/
def joinNL : List (List Char) → List Char
  | [] => []
  | [l] => l
  | l :: l' :: ls => l ++ '\n' :: joinNL (l' :: ls)

/-- Splitting a character list at every newline, keeping empty segments (the
plain split view; Python's `splitlines` is derived from it in `pyLines`). -/
def splitNL : List Char → List (List Char)
  | [] => [[]]
  | c :: cs =>
    if c = '\n' then [] :: splitNL cs
    else
      match splitNL cs with
      | [] => [[c]]
      | l :: ls => (c :: l) :: ls

/-- Model of Python `s.splitlines()` with `\n` as the only line terminator:
the empty string has no lines, and a terminating newline does not create a
trailing empty line. -/
def pyLines (cs : List Char) : List (List Char) :=
  if cs = [] then []
  else if (splitNL cs).getLast? = some [] then (splitNL cs).dropLast
  else splitNL cs

/-- Model of Python `s.strip()`: whitespace removed from both ends. -/
def pyStrip (l : List Char) : List Char :=
  ((l.dropWhile Char.isWhitespace).reverse.dropWhile Char.isWhitespace).reverse

/-! ## The response sanitizer of `generate_code` -/

/-- The language-tagged fence opener searched for in `generate_code`. -/
def fenceOpenMark : List Char := "```python".data

/-- The closing fence marker of `generate_code`. -/
def fenceCloseMark : List Char := "```".data

/-- Index of the first response line whose stripped form is exactly the
fence opener; models the `for i, line in enumerate(lines)` search with `break`
in `generate_code` (`code_start_idx`, `none` standing for `-1`). -/
def findFence : List (List Char) → Option Nat
  | [] => none
  | l :: ls =>
    if pyStrip l = fenceOpenMark then some 0
    else (findFence ls).map (· + 1)

/-- Commenting out one line as in `generate_code`: `"#" + line` unless the
line already starts with `"#"`. -/
def neutralize (l : List Char) : List Char :=
  if l.take 1 = "#".data then l else "#".data ++ l

/-- The `code` value computed in `generate_code` before the backtick pass:
with a fence opener at index `k`, the lines after `k` up to (excluding) the
first line stripping to the closing marker or the end of input; with no
opener, the whole response with every line commented out.  (The source also
comments out lines `0..k` inside its `lines` buffer, but that buffer is then
discarded: only `code_lines` reaches the returned code.) -/
def extractCode (lines : List (List Char)) : List (List Char) :=
  match findFence lines with
  | some k => (lines.drop (k + 1)).takeWhile fun l => !(pyStrip l == fenceCloseMark)
  | none => lines.map neutralize

/-- The backtick pass of `generate_code`: comment out every line of the code
whose stripped form starts with a backtick. -/
def commentBackticks (ls : List (List Char)) : List (List Char) :=
  ls.map fun l => if (pyStrip l).take 1 = "`".data then "#".data ++ l else l

/-- The final cleaned code of `generate_code`, before the metadata header:
extract, join, re-split, backtick pass, join — exactly the statement order of
the source. -/
def sanitizedCode (content : List Char) : List Char :=
  joinNL (commentBackticks (pyLines (joinNL (extractCode (pyLines content)))))

/-- The `loc` value of `generate_code`: the number of lines of the final
cleaned code whose stripped form is non-empty (the header is prepended only
afterwards and never counted). -/
def locOf (content : List Char) : Nat :=
  ((pyLines (sanitizedCode content)).filter fun l => !(pyStrip l == [])).length

/-- The four metadata comment lines prepended by `generate_code`, with the
interpolated configuration and timing strings as parameters. -/
def headerLines (promptFile modelName timestamp genTime : List Char) :
    List (List Char) :=
  ["# Generated from prompt file: ".data ++ promptFile,
   "# Model used: ".data ++ modelName,
   "# Time generated: ".data ++ timestamp,
   "# Generation time: ".data ++ genTime ++ " seconds".data]

/-- The header text of `generate_code`: each metadata line followed by a
newline. -/
def headerText (promptFile modelName timestamp genTime : List Char) : List Char :=
  (headerLines promptFile modelName timestamp genTime).foldr
    (fun l acc => l ++ '\n' :: acc) []

/-- Model of the pure part of `generate_code`: the returned source text
(metadata header followed by the cleaned code) and the `loc` metric.  The
network call and its timing are external collaborators and enter only through
the strings interpolated into the header. -/
def generate_code (promptFile modelName timestamp genTime content : List Char) :
    List Char × Nat :=
  (headerText promptFile modelName timestamp genTime ++ sanitizedCode content,
   locOf content)

/-! ## Toolkit lemmas on the line split/join primitives -/

theorem splitNL_ne_nil (cs : List Char) : splitNL cs ≠ [] := by
  induction cs with
  | nil => simp [splitNL]
  | cons c cs ih =>
    simp only [splitNL]
    split
    · simp
    · cases h : splitNL cs with
      | nil => simp
      | cons l ls => simp

theorem splitNL_of_no_newline (a : List Char) (h : '\n' ∉ a) : splitNL a = [a] := by
  induction a with
  | nil => simp [splitNL]
  | cons c cs ih =>
    have hc : c ≠ '\n' := fun hc => h (hc ▸ List.mem_cons_self c cs)
    have hcs : '\n' ∉ cs := fun hm => h (List.mem_cons_of_mem c hm)
    simp only [splitNL, if_neg hc, ih hcs]

theorem splitNL_append_newline (a r : List Char) (h : '\n' ∉ a) :
    splitNL (a ++ '\n' :: r) = a :: splitNL r := by
  induction a with
  | nil => simp [splitNL]
  | cons c cs ih =>
    have hc : c ≠ '\n' := fun hc => h (hc ▸ List.mem_cons_self c cs)
    have hcs : '\n' ∉ cs := fun hm => h (List.mem_cons_of_mem c hm)
    simp only [List.cons_append, splitNL, if_neg hc, List.append_eq, ih hcs]

theorem not_newline_mem_of_mem_splitNL (cs : List Char) (l : List Char)
    (hl : l ∈ splitNL cs) : '\n' ∉ l := by
  induction cs generalizing l with
  | nil =>
    simp [splitNL] at hl
    simp [hl]
  | cons c cs ih =>
    simp only [splitNL] at hl
    by_cases hc : c = '\n'
    · rw [if_pos hc] at hl
      rcases List.mem_cons.mp hl with h | h
      · simp [h]
      · exact ih l h
    · rw [if_neg hc] at hl
      rcases hsplit : splitNL cs with _ | ⟨l₀, ls⟩
      · exact absurd hsplit (splitNL_ne_nil cs)
      · rw [hsplit] at hl
        rcases List.mem_cons.mp hl with h | h
        · subst h
          intro hmem
          rcases List.mem_cons.mp hmem with h | h
          · exact hc h.symm
          · exact ih l₀ (hsplit ▸ List.mem_cons_self l₀ ls) h
        · exact ih l (hsplit ▸ List.mem_cons_of_mem l₀ h)

theorem pyLines_nil : pyLines [] = [] := rfl

theorem pyLines_append_newline (a r : List Char) (h : '\n' ∉ a) :
    pyLines (a ++ '\n' :: r) = a :: pyLines r := by
  have hne : a ++ '\n' :: r ≠ [] := by simp
  rw [pyLines, if_neg hne, splitNL_append_newline a r h]
  rcases r with _ | ⟨c, cs⟩
  · simp [splitNL, pyLines]
  · have hsnn := splitNL_ne_nil (c :: cs)
    rcases hsplit : splitNL (c :: cs) with _ | ⟨l₀, ls⟩
    · exact absurd hsplit hsnn
    · have hlast : (a :: l₀ :: ls).getLast? = (l₀ :: ls).getLast? :=
        List.getLast?_cons_cons ..
      rw [hlast, pyLines, if_neg (by simp : c :: cs ≠ ([] : List Char)), hsplit]
      by_cases hl : (l₀ :: ls).getLast? = some []
      · rw [if_pos hl, if_pos hl]
        rfl
      · rw [if_neg hl, if_neg hl]

theorem not_newline_mem_of_mem_pyLines (cs : List Char) (l : List Char)
    (hl : l ∈ pyLines cs) : '\n' ∉ l := by
  rw [pyLines] at hl
  split at hl
  · simp at hl
  · split at hl
    · exact not_newline_mem_of_mem_splitNL cs l (List.dropLast_subset _ hl)
    · exact not_newline_mem_of_mem_splitNL cs l hl

theorem pyLines_of_no_newline (a : List Char) (h : '\n' ∉ a) :
    pyLines a = if a = [] then [] else [a] := by
  by_cases ha : a = []
  · simp [ha, pyLines]
  · rw [if_neg ha, pyLines, if_neg ha, splitNL_of_no_newline a h]
    rw [if_neg (by simp [ha])]

theorem pyLines_joinNL (ls : List (List Char)) (h : ∀ l ∈ ls, '\n' ∉ l) :
    pyLines (joinNL ls) = if ls.getLast? = some [] then ls.dropLast else ls := by
  induction ls with
  | nil => simp [joinNL, pyLines]
  | cons a ls ih =>
    rcases ls with _ | ⟨b, ls'⟩
    · have ha : '\n' ∉ a := h a (List.mem_cons_self a [])
      rw [show joinNL [a] = a from rfl, pyLines_of_no_newline a ha]
      by_cases haa : a = []
      · subst haa
        simp
      · simp [haa]
    · have ha : '\n' ∉ a := h a (List.mem_cons_self a _)
      have h' : ∀ l ∈ b :: ls', '\n' ∉ l := fun l hl => h l (List.mem_cons_of_mem a hl)
      rw [show joinNL (a :: b :: ls') = a ++ '\n' :: joinNL (b :: ls') from rfl,
        pyLines_append_newline a _ ha, ih h', List.getLast?_cons_cons,
        show (a :: b :: ls').dropLast = a :: (b :: ls').dropLast from rfl]
      by_cases hl : (b :: ls').getLast? = some []
      · rw [if_pos hl, if_pos hl]
      · rw [if_neg hl, if_neg hl]

theorem pyLines_joinNL_of_no_trailing (ls : List (List Char))
    (h : ∀ l ∈ ls, '\n' ∉ l) (h' : ls.getLast? ≠ some []) :
    pyLines (joinNL ls) = ls := by
  rw [pyLines_joinNL ls h, if_neg h']

theorem mem_pyLines_joinNL (ls : List (List Char)) (h : ∀ l ∈ ls, '\n' ∉ l)
    (l : List Char) (hl : l ∈ pyLines (joinNL ls)) : l ∈ ls := by
  rw [pyLines_joinNL ls h] at hl
  split at hl
  · exact List.dropLast_subset _ hl
  · exact hl

/-! ## Lemmas on stripping, neutralization and the backtick pass -/

theorem pyStrip_hash_cons (l : List Char) : ∃ t, pyStrip ('#' :: l) = '#' :: t := by
  have hws : ('#' : Char).isWhitespace = false := by decide
  have h1 : ('#' :: l).dropWhile Char.isWhitespace = '#' :: l := by
    rw [List.dropWhile_cons, if_neg (by simp [hws])]
  rw [pyStrip, h1, show ('#' :: l).reverse = l.reverse ++ ['#'] by simp,
    List.dropWhile_append]
  by_cases he : (l.reverse.dropWhile Char.isWhitespace).isEmpty
  · rw [if_pos he]
    refine ⟨[], ?_⟩
    rw [List.dropWhile_cons, if_neg (by simp [hws])]
    simp
  · rw [if_neg he]
    exact ⟨(l.reverse.dropWhile Char.isWhitespace).reverse, by simp⟩

theorem take_one_eq_iff_exists_cons (l : List Char) (c : Char) :
    l.take 1 = [c] ↔ ∃ t, l = c :: t := by
  constructor
  · intro h
    cases l with
    | nil => simp at h
    | cons a as =>
      simp only [List.take_succ_cons, List.take_zero] at h
      exact ⟨as, by simp_all⟩
  · rintro ⟨t, rfl⟩
    simp

theorem neutralize_eq_hash_cons (l : List Char) : ∃ t, neutralize l = '#' :: t := by
  rw [neutralize]
  by_cases h : l.take 1 = "#".data
  · rw [if_pos h]
    exact (take_one_eq_iff_exists_cons l '#').mp h
  · rw [if_neg h]
    exact ⟨l, rfl⟩

theorem neutralize_take_one (l : List Char) : (neutralize l).take 1 = "#".data := by
  obtain ⟨t, ht⟩ := neutralize_eq_hash_cons l
  rw [ht]
  rfl

theorem neutralize_ne_nil (l : List Char) : neutralize l ≠ [] := by
  obtain ⟨t, ht⟩ := neutralize_eq_hash_cons l
  simp [ht]

theorem not_newline_mem_neutralize (l : List Char) (h : '\n' ∉ l) :
    '\n' ∉ neutralize l := by
  rw [neutralize]
  split
  · exact h
  · intro hm
    rcases List.mem_cons.mp hm with h' | h'
    · exact absurd h'.symm (by decide)
    · exact h h'

theorem pyStrip_take_one_of_hash (l : List Char) (h : l.take 1 = "#".data) :
    (pyStrip l).take 1 = "#".data := by
  obtain ⟨t, rfl⟩ := (take_one_eq_iff_exists_cons l '#').mp h
  obtain ⟨t', ht'⟩ := pyStrip_hash_cons t
  rw [ht']
  rfl

theorem pyStrip_ne_nil_of_hash (l : List Char) (h : l.take 1 = "#".data) :
    pyStrip l ≠ [] := by
  obtain ⟨t, rfl⟩ := (take_one_eq_iff_exists_cons l '#').mp h
  obtain ⟨t', ht'⟩ := pyStrip_hash_cons t
  simp [ht']

theorem commentBackticks_eq_of_all_hash (ls : List (List Char))
    (h : ∀ l ∈ ls, l.take 1 = "#".data) : commentBackticks ls = ls := by
  rw [commentBackticks]
  conv_rhs => rw [← List.map_id ls]
  refine List.map_congr_left fun l hl => ?_
  rw [if_neg, id]
  rw [pyStrip_take_one_of_hash l (h l hl)]
  decide

theorem no_backtick_mem_commentBackticks (ls : List (List Char)) (l : List Char)
    (hl : l ∈ commentBackticks ls) : ¬ (pyStrip l).take 1 = "`".data := by
  rw [commentBackticks] at hl
  obtain ⟨l₀, _, rfl⟩ := List.mem_map.mp hl
  by_cases hc : (pyStrip l₀).take 1 = "`".data
  · rw [if_pos hc, show "#".data ++ l₀ = '#' :: l₀ from rfl]
    obtain ⟨t, ht⟩ := pyStrip_hash_cons l₀
    rw [ht, show ('#' :: t).take 1 = ['#'] from rfl]
    decide
  · rw [if_neg hc]
    exact hc

theorem not_newline_mem_commentBackticks (ls : List (List Char))
    (h : ∀ l ∈ ls, '\n' ∉ l) (l : List Char) (hl : l ∈ commentBackticks ls) :
    '\n' ∉ l := by
  rw [commentBackticks] at hl
  obtain ⟨l₀, hl₀, rfl⟩ := List.mem_map.mp hl
  split
  · intro hm
    rcases List.mem_cons.mp hm with h' | h'
    · exact absurd h'.symm (by decide)
    · exact h l₀ hl₀ h'
  · exact h l₀ hl₀

/-! ## Lemmas on the fence search and code extraction -/

theorem findFence_eq_none (lines : List (List Char))
    (h : ∀ l ∈ lines, pyStrip l ≠ fenceOpenMark) : findFence lines = none := by
  induction lines with
  | nil => rfl
  | cons l ls ih =>
    rw [findFence, if_neg (h l (List.mem_cons_self l ls)),
      ih fun l' hl' => h l' (List.mem_cons_of_mem l hl')]
    rfl

theorem findFence_isSome_eq_any (lines : List (List Char)) :
    (findFence lines).isSome = lines.any fun l => pyStrip l == fenceOpenMark := by
  induction lines with
  | nil => rfl
  | cons l ls ih =>
    rw [findFence, List.any_cons]
    by_cases h : pyStrip l = fenceOpenMark
    · rw [if_pos h]
      simp [h]
    · rw [if_neg h]
      have hmap : ((findFence ls).map (· + 1)).isSome = (findFence ls).isSome := by
        cases findFence ls <;> rfl
      rw [hmap, ih]
      simp [h]

theorem findFence_append_first (pre : List (List Char)) (op : List Char)
    (rest : List (List Char)) (hpre : ∀ l ∈ pre, pyStrip l ≠ fenceOpenMark)
    (hop : pyStrip op = fenceOpenMark) :
    findFence (pre ++ op :: rest) = some pre.length := by
  induction pre with
  | nil => simp [findFence, hop]
  | cons l ls ih =>
    rw [List.cons_append, findFence, if_neg (hpre l (List.mem_cons_self l ls)),
      ih fun l' hl' => hpre l' (List.mem_cons_of_mem l hl')]
    rfl

theorem takeWhile_append_of_all (p : List Char → Bool) (mid r : List (List Char))
    (h : ∀ x ∈ mid, p x = true) :
    (mid ++ r).takeWhile p = mid ++ r.takeWhile p := by
  induction mid with
  | nil => rfl
  | cons x xs ih =>
    rw [List.cons_append, List.takeWhile_cons, if_pos (h x (List.mem_cons_self x xs)),
      ih fun x' hx' => h x' (List.mem_cons_of_mem x hx'), List.cons_append]

/-! ## The no-fence fallback of the sanitizer -/

theorem sanitizedCode_of_no_fence (content : List Char)
    (h : ∀ l ∈ pyLines content, pyStrip l ≠ fenceOpenMark) :
    sanitizedCode content = joinNL ((pyLines content).map neutralize) ∧
    ∀ l ∈ pyLines (sanitizedCode content), l.take 1 = "#".data := by
  have hext : extractCode (pyLines content) = (pyLines content).map neutralize := by
    rw [extractCode, findFence_eq_none (pyLines content) h]
  have hnn : ∀ l ∈ (pyLines content).map neutralize, '\n' ∉ l := by
    intro l hl
    obtain ⟨l₀, hl₀, rfl⟩ := List.mem_map.mp hl
    exact not_newline_mem_neutralize l₀ (not_newline_mem_of_mem_pyLines content l₀ hl₀)
  have hlast : ((pyLines content).map neutralize).getLast? ≠ some [] := by
    intro hc
    have hmem : ([] : List Char) ∈ (pyLines content).map neutralize :=
      List.mem_of_mem_getLast? (by simp [hc])
    obtain ⟨l₀, _, hl₀⟩ := List.mem_map.mp hmem
    exact neutralize_ne_nil l₀ hl₀
  have hround : pyLines (joinNL ((pyLines content).map neutralize)) =
      (pyLines content).map neutralize :=
    pyLines_joinNL_of_no_trailing _ hnn hlast
  have hhash : ∀ l ∈ (pyLines content).map neutralize, l.take 1 = "#".data := by
    intro l hl
    obtain ⟨l₀, _, rfl⟩ := List.mem_map.mp hl
    exact neutralize_take_one l₀
  have hbody : sanitizedCode content = joinNL ((pyLines content).map neutralize) := by
    rw [sanitizedCode, hext, hround, commentBackticks_eq_of_all_hash _ hhash]
  refine ⟨hbody, ?_⟩
  intro l hl
  rw [hbody, hround] at hl
  exact hhash l hl

/-- Claim C6: for every raw response with no line stripping to the fence
opener, sanitization never fails and returns as candidate body the whole
response with every line neutralized into a comment; every line of the
resulting body begins with `#`, so the candidate executes as a no-op. -/
theorem C6_no_fence_fully_neutralized (content : List Char)
    (h : ∀ l ∈ pyLines content, pyStrip l ≠ fenceOpenMark) :
    sanitizedCode content = joinNL ((pyLines content).map neutralize) ∧
    ∀ l ∈ pyLines (sanitizedCode content), l.take 1 = "#".data :=
  sanitizedCode_of_no_fence content h

theorem C6_no_fence_fully_neutralized_witness :
    (∀ l ∈ pyLines "Sorry, here is prose\nwith no code".data,
        pyStrip l ≠ fenceOpenMark) ∧
    (sanitizedCode "Sorry, here is prose\nwith no code".data =
        joinNL ((pyLines "Sorry, here is prose\nwith no code".data).map neutralize) ∧
      ∀ l ∈ pyLines (sanitizedCode "Sorry, here is prose\nwith no code".data),
        l.take 1 = "#".data) :=
  ⟨by decide, C6_no_fence_fully_neutralized _ (by decide)⟩

/-- Claim C10: the sanitizer recognizes as a fence opener exactly the lines
that strip to the Python-tagged marker; for a response whose lines never strip
to that marker (for example a bare fence or a different language tag), no
fenced region is detected and the whole response is neutralized into comment
lines, a no-op candidate. -/
theorem C10_opener_detection (content : List Char)
    (h : ((pyLines content).any fun l => pyStrip l == fenceOpenMark) = false) :
    (∀ lines : List (List Char),
        (findFence lines).isSome = lines.any fun l => pyStrip l == fenceOpenMark) ∧
    sanitizedCode content = joinNL ((pyLines content).map neutralize) ∧
    ∀ l ∈ pyLines (sanitizedCode content), l.take 1 = "#".data := by
  have h' : ∀ l ∈ pyLines content, pyStrip l ≠ fenceOpenMark := by
    intro l hl
    have := List.any_eq_false.mp h l hl
    simpa using this
  obtain ⟨h1, h2⟩ := sanitizedCode_of_no_fence content h'
  exact ⟨findFence_isSome_eq_any, h1, h2⟩

theorem C10_opener_detection_witness :
    (((pyLines "```\nprint(1)\n```".data).any
        fun l => pyStrip l == fenceOpenMark) = false) ∧
    ((∀ lines : List (List Char),
        (findFence lines).isSome = lines.any fun l => pyStrip l == fenceOpenMark) ∧
      sanitizedCode "```\nprint(1)\n```".data =
        joinNL ((pyLines "```\nprint(1)\n```".data).map neutralize) ∧
      ∀ l ∈ pyLines (sanitizedCode "```\nprint(1)\n```".data),
        l.take 1 = "#".data) :=
  ⟨by decide, C10_opener_detection _ (by decide)⟩

/-! ## Claim C8: the backtick pass -/

/-- Claim C8: a line of the code whose stripped form starts with a backtick is
turned by the backtick pass into the same line prefixed with `#`, at its own
position (the pass runs on the extracted fenced region itself), and
consequently no line of any final candidate body starts, after stripping,
with a backtick. -/
theorem C8_backtick_lines_neutralized (content : List Char)
    (pre post : List (List Char)) (l₀ : List Char)
    (hbt : (pyStrip l₀).take 1 = "`".data) :
    commentBackticks (pre ++ l₀ :: post) =
      commentBackticks pre ++ ("#".data ++ l₀) :: commentBackticks post ∧
    ∀ l ∈ pyLines (sanitizedCode content), ¬ (pyStrip l).take 1 = "`".data := by
  constructor
  · rw [commentBackticks, commentBackticks, commentBackticks, List.map_append,
      List.map_cons, if_pos hbt]
  · intro l hl
    have hX : ∀ l' ∈ pyLines (joinNL (extractCode (pyLines content))), '\n' ∉ l' :=
      not_newline_mem_of_mem_pyLines _
    have hCB : ∀ l' ∈ commentBackticks
        (pyLines (joinNL (extractCode (pyLines content)))), '\n' ∉ l' :=
      not_newline_mem_commentBackticks _ hX
    rw [sanitizedCode] at hl
    exact no_backtick_mem_commentBackticks _ l (mem_pyLines_joinNL _ hCB l hl)

theorem C8_backtick_lines_neutralized_witness :
    ((pyStrip "  `pip install foo".data).take 1 = "`".data) ∧
    (commentBackticks (["x = 1".data] ++ "  `pip install foo".data :: ["print(1)".data]) =
      commentBackticks ["x = 1".data] ++
        ("#".data ++ "  `pip install foo".data) :: commentBackticks ["print(1)".data] ∧
    ∀ l ∈ pyLines (sanitizedCode "```python\n`x\n```".data),
      ¬ (pyStrip l).take 1 = "`".data) :=
  ⟨by decide,
    C8_backtick_lines_neutralized "```python\n`x\n```".data _ _ _ (by decide)⟩

/-! ## Claim C7: the `loc` metric and the metadata header -/

theorem pyLines_headerText_append (pf mdl ts gt body : List Char)
    (hpf : '\n' ∉ pf) (hm : '\n' ∉ mdl) (hts : '\n' ∉ ts) (hgt : '\n' ∉ gt) :
    pyLines (headerText pf mdl ts gt ++ body) =
      headerLines pf mdl ts gt ++ pyLines body := by
  have h1 : '\n' ∉ "# Generated from prompt file: ".data ++ pf := by
    intro hmem
    rcases List.mem_append.mp hmem with h | h
    · exact absurd h (by decide)
    · exact hpf h
  have h2 : '\n' ∉ "# Model used: ".data ++ mdl := by
    intro hmem
    rcases List.mem_append.mp hmem with h | h
    · exact absurd h (by decide)
    · exact hm h
  have h3 : '\n' ∉ "# Time generated: ".data ++ ts := by
    intro hmem
    rcases List.mem_append.mp hmem with h | h
    · exact absurd h (by decide)
    · exact hts h
  have h4 : '\n' ∉ "# Generation time: ".data ++ gt ++ " seconds".data := by
    intro hmem
    rcases List.mem_append.mp hmem with h | h
    · rcases List.mem_append.mp h with h' | h'
      · exact absurd h' (by decide)
      · exact hgt h'
    · exact absurd h (by decide)
  have hform : headerText pf mdl ts gt ++ body =
      ("# Generated from prompt file: ".data ++ pf) ++ '\n' ::
        (("# Model used: ".data ++ mdl) ++ '\n' ::
          (("# Time generated: ".data ++ ts) ++ '\n' ::
            (("# Generation time: ".data ++ gt ++ " seconds".data) ++ '\n' :: body))) := by
    simp [headerText, headerLines, List.append_assoc]
  rw [hform, pyLines_append_newline _ _ h1, pyLines_append_newline _ _ h2,
    pyLines_append_newline _ _ h3, pyLines_append_newline _ _ h4, headerLines]
  rfl

/-- Claim C7: for every raw response, the `loc` value returned by the
sanitizer equals the number of lines of the final candidate body that are
non-blank after stripping, counted after neutralization; the full returned
text consists of exactly four metadata comment lines followed by that body,
and `loc` equals the non-blank line count of the full text minus those four
header lines (each of which is a non-blank comment line). -/
theorem C7_loc_counts_nonblank_body (pf mdl ts gt content : List Char)
    (hpf : '\n' ∉ pf) (hm : '\n' ∉ mdl) (hts : '\n' ∉ ts) (hgt : '\n' ∉ gt) :
    (generate_code pf mdl ts gt content).2 =
      ((pyLines (sanitizedCode content)).filter fun l => !(pyStrip l == [])).length ∧
    pyLines (generate_code pf mdl ts gt content).1 =
      headerLines pf mdl ts gt ++ pyLines (sanitizedCode content) ∧
    (headerLines pf mdl ts gt).length = 4 ∧
    (∀ l ∈ headerLines pf mdl ts gt, l.take 1 = "#".data ∧ pyStrip l ≠ []) ∧
    (generate_code pf mdl ts gt content).2 + 4 =
      ((pyLines (generate_code pf mdl ts gt content).1).filter
        fun l => !(pyStrip l == [])).length := by
  have hhead : ∀ l ∈ headerLines pf mdl ts gt, l.take 1 = "#".data ∧ pyStrip l ≠ [] := by
    intro l hl
    simp only [headerLines, List.mem_cons, List.not_mem_nil, or_false] at hl
    rcases hl with rfl | rfl | rfl | rfl
    · exact ⟨rfl, pyStrip_ne_nil_of_hash _ rfl⟩
    · exact ⟨rfl, pyStrip_ne_nil_of_hash _ rfl⟩
    · exact ⟨rfl, pyStrip_ne_nil_of_hash _ rfl⟩
    · exact ⟨rfl, pyStrip_ne_nil_of_hash _ rfl⟩
  have hsplit : pyLines (generate_code pf mdl ts gt content).1 =
      headerLines pf mdl ts gt ++ pyLines (sanitizedCode content) :=
    pyLines_headerText_append pf mdl ts gt _ hpf hm hts hgt
  refine ⟨rfl, hsplit, rfl, hhead, ?_⟩
  rw [hsplit, List.filter_append, List.length_append]
  have hfh : (headerLines pf mdl ts gt).filter (fun l => !(pyStrip l == [])) =
      headerLines pf mdl ts gt := by
    rw [List.filter_eq_self]
    intro l hl
    simpa using (hhead l hl).2
  rw [hfh]
  show locOf content + 4 = (headerLines pf mdl ts gt).length + _
  rw [locOf, show (headerLines pf mdl ts gt).length = 4 from rfl]
  omega

theorem C7_loc_counts_nonblank_body_witness :
    ('\n' ∉ "prompt.txt".data) ∧ ('\n' ∉ "llama".data) ∧
    ('\n' ∉ "2025-01-01 00:00:00".data) ∧ ('\n' ∉ "1.234".data) ∧
    ((generate_code "prompt.txt".data "llama".data "2025-01-01 00:00:00".data
        "1.234".data "```python\nprint(1)\n```".data).2 =
      ((pyLines (sanitizedCode "```python\nprint(1)\n```".data)).filter
        fun l => !(pyStrip l == [])).length ∧
    pyLines (generate_code "prompt.txt".data "llama".data
        "2025-01-01 00:00:00".data "1.234".data "```python\nprint(1)\n```".data).1 =
      headerLines "prompt.txt".data "llama".data "2025-01-01 00:00:00".data
          "1.234".data ++ pyLines (sanitizedCode "```python\nprint(1)\n```".data) ∧
    (headerLines "prompt.txt".data "llama".data "2025-01-01 00:00:00".data
        "1.234".data).length = 4 ∧
    (∀ l ∈ headerLines "prompt.txt".data "llama".data "2025-01-01 00:00:00".data
        "1.234".data, l.take 1 = "#".data ∧ pyStrip l ≠ []) ∧
    (generate_code "prompt.txt".data "llama".data "2025-01-01 00:00:00".data
        "1.234".data "```python\nprint(1)\n```".data).2 + 4 =
      ((pyLines (generate_code "prompt.txt".data "llama".data
          "2025-01-01 00:00:00".data "1.234".data
          "```python\nprint(1)\n```".data).1).filter
        fun l => !(pyStrip l == [])).length) :=
  ⟨by decide, by decide, by decide, by decide,
    C7_loc_counts_nonblank_body _ _ _ _ _ (by decide) (by decide) (by decide) (by decide)⟩

/-! ## Claim C3: extraction of the fenced region -/

theorem extractCode_decomp (pre : List (List Char)) (op : List Char)
    (mid tail : List (List Char))
    (hpre : ∀ l ∈ pre, pyStrip l ≠ fenceOpenMark)
    (hop : pyStrip op = fenceOpenMark)
    (hmid : ∀ l ∈ mid, pyStrip l ≠ fenceCloseMark)
    (htail : tail = [] ∨
      ∃ closer post, tail = closer :: post ∧ pyStrip closer = fenceCloseMark) :
    extractCode (pre ++ op :: (mid ++ tail)) = mid := by
  have hff : findFence (pre ++ op :: (mid ++ tail)) = some pre.length :=
    findFence_append_first pre op (mid ++ tail) hpre hop
  rw [extractCode, hff]
  have hdrop : (pre ++ op :: (mid ++ tail)).drop (pre.length + 1) = mid ++ tail := by
    rw [show pre ++ op :: (mid ++ tail) = (pre ++ [op]) ++ (mid ++ tail) by simp,
      show pre.length + 1 = (pre ++ [op]).length by simp]
    exact List.drop_left _ _
  show ((pre ++ op :: (mid ++ tail)).drop (pre.length + 1)).takeWhile _ = mid
  rw [hdrop, takeWhile_append_of_all _ mid tail (by intro x hx; simp [hmid x hx])]
  rcases htail with rfl | ⟨closer, post, rfl, hcl⟩
  · simp
  · rw [List.takeWhile_cons, if_neg (by simp [hcl])]
    simp

/-- Claim C3 (amended): when the response lines decompose as a preamble none
of whose lines strips to the opener, then an opener line, then a region none
of whose lines strips to the closer, then either nothing or a closing line
followed by anything, the extracted code is exactly the region strictly
between the opener and the first closer (or the end of input), and every line
of the final candidate body is one of those in-range lines, possibly with a
`#` prefixed by the backtick pass.  Lines outside that range never reach the
body: the preamble is commented out only inside a discarded buffer, and lines
after the closing fence are dropped. -/
theorem C3_fenced_extraction (content : List Char) (pre : List (List Char))
    (op : List Char) (mid tail : List (List Char))
    (hsplit : pyLines content = pre ++ op :: (mid ++ tail))
    (hpre : ∀ l ∈ pre, pyStrip l ≠ fenceOpenMark)
    (hop : pyStrip op = fenceOpenMark)
    (hmid : ∀ l ∈ mid, pyStrip l ≠ fenceCloseMark)
    (htail : tail = [] ∨
      ∃ closer post, tail = closer :: post ∧ pyStrip closer = fenceCloseMark) :
    extractCode (pyLines content) = mid ∧
    ∀ l ∈ pyLines (sanitizedCode content), ∃ l₀ ∈ mid,
      l = l₀ ∨ l = "#".data ++ l₀ := by
  have hext : extractCode (pyLines content) = mid := by
    rw [hsplit]
    exact extractCode_decomp pre op mid tail hpre hop hmid htail
  refine ⟨hext, ?_⟩
  intro l hl
  rw [sanitizedCode, hext] at hl
  have hmidnn : ∀ l' ∈ mid, '\n' ∉ l' := by
    intro l' hl'
    refine not_newline_mem_of_mem_pyLines content l' ?_
    rw [hsplit]
    exact List.mem_append.mpr
      (Or.inr (List.mem_cons_of_mem _ (List.mem_append.mpr (Or.inl hl'))))
  have hsub1 : ∀ l' ∈ pyLines (joinNL mid), l' ∈ mid := mem_pyLines_joinNL mid hmidnn
  have hCB : ∀ l' ∈ commentBackticks (pyLines (joinNL mid)), '\n' ∉ l' :=
    not_newline_mem_commentBackticks _ (not_newline_mem_of_mem_pyLines _)
  have hl2 : l ∈ commentBackticks (pyLines (joinNL mid)) :=
    mem_pyLines_joinNL _ hCB l hl
  rw [commentBackticks] at hl2
  obtain ⟨l₀, hl₀, rfl⟩ := List.mem_map.mp hl2
  refine ⟨l₀, hsub1 l₀ hl₀, ?_⟩
  by_cases hc : (pyStrip l₀).take 1 = "`".data
  · rw [if_pos hc]
    exact Or.inr rfl
  · rw [if_neg hc]
    exact Or.inl rfl

theorem C3_fenced_extraction_witness :
    (pyLines "intro\n```python\nx = 1\n```\nbye".data =
      ["intro".data] ++ "```python".data :: (["x = 1".data] ++
        ["```".data, "bye".data])) ∧
    (∀ l ∈ (["intro".data] : List (List Char)), pyStrip l ≠ fenceOpenMark) ∧
    (pyStrip "```python".data = fenceOpenMark) ∧
    (∀ l ∈ (["x = 1".data] : List (List Char)), pyStrip l ≠ fenceCloseMark) ∧
    (extractCode (pyLines "intro\n```python\nx = 1\n```\nbye".data) =
        ["x = 1".data] ∧
      ∀ l ∈ pyLines (sanitizedCode "intro\n```python\nx = 1\n```\nbye".data),
        ∃ l₀ ∈ (["x = 1".data] : List (List Char)),
          l = l₀ ∨ l = "#".data ++ l₀) :=
  ⟨by decide, by decide, by decide, by decide,
    C3_fenced_extraction "intro\n```python\nx = 1\n```\nbye".data
      ["intro".data] "```python".data ["x = 1".data] ["```".data, "bye".data]
      (by decide) (by decide) (by decide) (by decide)
      (Or.inr ⟨"```".data, ["bye".data], rfl, by decide⟩)⟩

/-- Claim C3 counterexample: sanitizing the response
`intro` / fence opener / `x = 1` / closing fence / `bye` yields the candidate
body `x = 1` alone.  The lines `intro` and `bye` lie outside the fenced range,
yet neither they nor their commented forms `#intro` and `#bye` occur anywhere
in the body: outside lines are not "neutralized into a non-executable comment
line" of the candidate — the preamble is commented only in a discarded buffer
and the trailing lines are dropped outright. -/
theorem C3_counterexample :
    pyLines (sanitizedCode "intro\n```python\nx = 1\n```\nbye".data) =
      ["x = 1".data] ∧
    "#intro".data ∉ pyLines (sanitizedCode "intro\n```python\nx = 1\n```\nbye".data) ∧
    "#bye".data ∉ pyLines (sanitizedCode "intro\n```python\nx = 1\n```\nbye".data) ∧
    "intro".data ∉ pyLines (sanitizedCode "intro\n```python\nx = 1\n```\nbye".data) ∧
    "bye".data ∉ pyLines (sanitizedCode "intro\n```python\nx = 1\n```\nbye".data) := by
  decide

/-! ## The candidate runner `test_code` and the refinement loop -/

/-- Result of one invocation of the external interpreter subprocess: exit
code and captured standard output and standard error (the execution
environment is an external collaborator; the loop only consumes this
triple). -/
structure ExecOutcome where
  rc : Int
  stdout : String
  stderr : String

/-- The file-artifact store: file names mapped to contents, `none` meaning
the file does not exist. -/
abbrev FS := String → Option String

/-- The configuration values consulted by the runner and the loop.  The
remaining config keys (`model`, `prompt_file`, `print_output`, `print_code`,
`interpreter`) affect only reporting or the external collaborators. -/
structure Config where
  max_attempts : Nat
  max_time : ℚ
  source_file : String
  base_name : String
  print_runtime_error_messages : Bool

/-- The fixed scratch file used by `test_code` when runtime error messages
are suppressed. -/
def tempName : String := "temp_runtime_error.txt"

/-- The archive name used when attempt `i + 1` overwrites the artifact:
`f"{base_name}{i}.py"`. -/
def archiveName (cfg : Config) (i : Nat) : String :=
  cfg.base_name ++ toString i ++ ".py"

/-- Model of `test_code(code, filename=source_file, attempt)`: when
`attempt > 1`, copy the current artifact to the numbered archive; overwrite
the artifact with the new candidate; run the interpreter (the collaborator's
result is the parameter `res`); classify success as exit status zero.  When
`print_runtime_error_messages` is false the source routes standard error
through a scratch file that is written during the run, read back, and
removed; the error text handed back is the read-back contents. -/
def test_code (cfg : Config) (res : ExecOutcome) (code : String) (attempt : Nat)
    (fs : FS) : (Bool × String × String) × FS :=
  let fs1 : FS := if attempt > 1 then
      fun n => if n = archiveName cfg (attempt - 1) then fs cfg.source_file else fs n
    else fs
  let fs2 : FS := fun n => if n = cfg.source_file then some code else fs1 n
  if cfg.print_runtime_error_messages then
    ((res.rc == 0, res.stdout, res.stderr), fs2)
  else
    let fs3 : FS := fun n => if n = tempName then some res.stderr else fs2 n
    let errRead : String := (fs3 tempName).getD ""
    let fs4 : FS := fun n => if n = tempName then none else fs3 n
    ((res.rc == 0, res.stdout, errRead), fs4)

/-- Terminal outcome of the refinement loop: its three `break` sites. -/
inductive Outcome where
  | succeeded
  | failedMaxTime
  | failedMaxAttempts
deriving DecidableEq

/-- The mutable state of the refinement loop (`code`, `attempts`,
`total_gen_time`, the file store), extended with ghost trace fields:
`genCalls` and `execCalls` count the generation and execution collaborator
calls, `archived` lists the archive copies in creation order, and
`genIssueTotals` records the value of `total_gen_time` at the moment each
generation call was issued. -/
structure LoopState where
  code : String
  attempts : Nat
  total_gen_time : ℚ
  fs : FS
  genCalls : Nat
  execCalls : Nat
  archived : List String
  genIssueTotals : List ℚ

/-- Effect of one `test_code` call on the loop state: the file store is
updated and the ghost execution/archive trace extended (an archive copy is
recorded exactly when `attempt > 1`, mirroring the copy in `test_code`). -/
def execStep (cfg : Config) (exec : Nat → ExecOutcome) (s : LoopState) : LoopState :=
  { s with
    fs := (test_code cfg (exec s.attempts) s.code s.attempts s.fs).2
    execCalls := s.execCalls + 1
    archived := s.archived ++
      (if s.attempts > 1 then [archiveName cfg (s.attempts - 1)] else []) }

/-- Effect of one retry generation call on the loop state: new candidate
text, duration added to `total_gen_time`, `attempts` incremented, and the
ghost generation trace extended with the cumulative time at which the call
was issued. -/
def genStep (cfg : Config) (genCode : Nat → String) (gt : Nat → ℚ)
    (s : LoopState) : LoopState :=
  { s with
    code := genCode (s.genCalls + 1)
    total_gen_time := s.total_gen_time + gt (s.genCalls + 1)
    attempts := s.attempts + 1
    genCalls := s.genCalls + 1
    genIssueTotals := s.genIssueTotals ++ [s.total_gen_time] }

/-- Fuel-indexed model of the `while True` refinement loop, in the exact
statement order of the source: run `test_code`; on success break
(`succeeded`); otherwise, if `total_gen_time >= max_time`, break
(`failedMaxTime`); otherwise issue a new generation call and increment
`attempts`, then break (`failedMaxAttempts`) if `attempts > max_attempts`;
otherwise iterate.  `exec a` is the interpreter result for the execution with
`attempts = a`; `genCode k` and `gt k` are the text and duration of the
`k`-th generation call of the whole run. -/
def runLoop (cfg : Config) (exec : Nat → ExecOutcome) (genCode : Nat → String)
    (gt : Nat → ℚ) : Nat → LoopState → Option (Outcome × LoopState)
  | 0, _ => none
  | fuel + 1, s =>
    let s1 := execStep cfg exec s
    if (test_code cfg (exec s.attempts) s.code s.attempts s.fs).1.1 then
      some (.succeeded, s1)
    else if cfg.max_time ≤ s1.total_gen_time then some (.failedMaxTime, s1)
    else
      let s2 := genStep cfg genCode gt s1
      if s2.attempts > cfg.max_attempts then some (.failedMaxAttempts, s2)
      else runLoop cfg exec genCode gt fuel s2

/-- The whole refinement run: the initial generation call is issued
unconditionally before the loop (at cumulative generation time `0`, recorded
in the ghost trace), then the loop runs with fuel covering the attempt
budget. -/
def runProgram (cfg : Config) (exec : Nat → ExecOutcome) (genCode : Nat → String)
    (gt : Nat → ℚ) (fs0 : FS) : Option (Outcome × LoopState) :=
  runLoop cfg exec genCode gt (cfg.max_attempts + 1)
    { code := genCode 1, attempts := 1, total_gen_time := gt 1, fs := fs0,
      genCalls := 1, execCalls := 0, archived := [], genIssueTotals := [0] }

theorem runLoop_succ_eq (cfg : Config) (exec : Nat → ExecOutcome)
    (genCode : Nat → String) (gt : Nat → ℚ) (fuel : Nat) (s : LoopState) :
    runLoop cfg exec genCode gt (fuel + 1) s =
      if (test_code cfg (exec s.attempts) s.code s.attempts s.fs).1.1 then
        some (.succeeded, execStep cfg exec s)
      else if cfg.max_time ≤ (execStep cfg exec s).total_gen_time then
        some (.failedMaxTime, execStep cfg exec s)
      else if (genStep cfg genCode gt (execStep cfg exec s)).attempts >
          cfg.max_attempts then
        some (.failedMaxAttempts, genStep cfg genCode gt (execStep cfg exec s))
      else runLoop cfg exec genCode gt fuel
        (genStep cfg genCode gt (execStep cfg exec s)) := rfl

/-! ## Pointwise facts about `test_code` -/

theorem test_code_success (cfg : Config) (res : ExecOutcome) (code : String)
    (attempt : Nat) (fs : FS) :
    (test_code cfg res code attempt fs).1.1 = (res.rc == 0) := by
  rw [test_code]
  split <;> rfl

theorem test_code_fs_source (cfg : Config) (res : ExecOutcome) (code : String)
    (attempt : Nat) (fs : FS) (hst : cfg.source_file ≠ tempName) :
    (test_code cfg res code attempt fs).2 cfg.source_file = some code := by
  rw [test_code]
  split
  · simp
  · simp [hst]

theorem test_code_fs_archive (cfg : Config) (res : ExecOutcome) (code : String)
    (attempt : Nat) (fs : FS) (ha : 2 ≤ attempt)
    (h1 : archiveName cfg (attempt - 1) ≠ cfg.source_file)
    (h2 : archiveName cfg (attempt - 1) ≠ tempName) :
    (test_code cfg res code attempt fs).2 (archiveName cfg (attempt - 1)) =
      fs cfg.source_file := by
  rw [test_code]
  have hgt : attempt > 1 := ha
  split
  · simp [h1, hgt]
  · simp [h1, h2, hgt]

theorem test_code_fs_other (cfg : Config) (res : ExecOutcome) (code : String)
    (attempt : Nat) (fs : FS) (n : String) (hn1 : n ≠ cfg.source_file)
    (hn2 : n ≠ tempName) (hn3 : attempt ≤ 1 ∨ n ≠ archiveName cfg (attempt - 1)) :
    (test_code cfg res code attempt fs).2 n = fs n := by
  rw [test_code]
  rcases hn3 with hle | hne
  · have hngt : ¬ attempt > 1 := by omega
    split
    · simp [hn1, hngt]
    · simp [hn1, hn2, hngt]
  · by_cases hgt : attempt > 1
    · split
      · simp [hn1, hne, hgt]
      · simp [hn1, hn2, hne, hgt]
    · split
      · simp [hn1, hgt]
      · simp [hn1, hn2, hgt]

/-! ## Claim C9: the reporting flag does not influence the controller -/

/-- Claim C9: for a fixed candidate, artifact path, attempt index and
interpreter result, the `(success, stdout, stderr)` triple returned by
`test_code` is the same whether `print_runtime_error_messages` is true or
false: the flag only routes standard error through a scratch file that is
read straight back, so the controller always receives the full error text and
the same control decision. -/
theorem C9_flag_does_not_change_result (mA : Nat) (mT : ℚ) (sf bn : String)
    (res : ExecOutcome) (code : String) (attempt : Nat) (fs : FS) :
    (test_code ⟨mA, mT, sf, bn, true⟩ res code attempt fs).1 =
      (test_code ⟨mA, mT, sf, bn, false⟩ res code attempt fs).1 := by
  simp [test_code]

@[simp] theorem execStep_code (cfg : Config) (exec : Nat → ExecOutcome)
    (s : LoopState) : (execStep cfg exec s).code = s.code := rfl

@[simp] theorem execStep_attempts (cfg : Config) (exec : Nat → ExecOutcome)
    (s : LoopState) : (execStep cfg exec s).attempts = s.attempts := rfl

@[simp] theorem execStep_total (cfg : Config) (exec : Nat → ExecOutcome)
    (s : LoopState) : (execStep cfg exec s).total_gen_time = s.total_gen_time := rfl

@[simp] theorem execStep_fs (cfg : Config) (exec : Nat → ExecOutcome)
    (s : LoopState) : (execStep cfg exec s).fs =
      (test_code cfg (exec s.attempts) s.code s.attempts s.fs).2 := rfl

@[simp] theorem execStep_genCalls (cfg : Config) (exec : Nat → ExecOutcome)
    (s : LoopState) : (execStep cfg exec s).genCalls = s.genCalls := rfl

@[simp] theorem execStep_execCalls (cfg : Config) (exec : Nat → ExecOutcome)
    (s : LoopState) : (execStep cfg exec s).execCalls = s.execCalls + 1 := rfl

@[simp] theorem execStep_archived (cfg : Config) (exec : Nat → ExecOutcome)
    (s : LoopState) : (execStep cfg exec s).archived = s.archived ++
      (if s.attempts > 1 then [archiveName cfg (s.attempts - 1)] else []) := rfl

@[simp] theorem execStep_genIssueTotals (cfg : Config) (exec : Nat → ExecOutcome)
    (s : LoopState) : (execStep cfg exec s).genIssueTotals = s.genIssueTotals := rfl

@[simp] theorem genStep_code (cfg : Config) (genCode : Nat → String) (gt : Nat → ℚ)
    (s : LoopState) : (genStep cfg genCode gt s).code = genCode (s.genCalls + 1) := rfl

@[simp] theorem genStep_attempts (cfg : Config) (genCode : Nat → String)
    (gt : Nat → ℚ) (s : LoopState) :
    (genStep cfg genCode gt s).attempts = s.attempts + 1 := rfl

@[simp] theorem genStep_total (cfg : Config) (genCode : Nat → String) (gt : Nat → ℚ)
    (s : LoopState) : (genStep cfg genCode gt s).total_gen_time =
      s.total_gen_time + gt (s.genCalls + 1) := rfl

@[simp] theorem genStep_fs (cfg : Config) (genCode : Nat → String) (gt : Nat → ℚ)
    (s : LoopState) : (genStep cfg genCode gt s).fs = s.fs := rfl

@[simp] theorem genStep_genCalls (cfg : Config) (genCode : Nat → String)
    (gt : Nat → ℚ) (s : LoopState) :
    (genStep cfg genCode gt s).genCalls = s.genCalls + 1 := rfl

@[simp] theorem genStep_execCalls (cfg : Config) (genCode : Nat → String)
    (gt : Nat → ℚ) (s : LoopState) :
    (genStep cfg genCode gt s).execCalls = s.execCalls := rfl

@[simp] theorem genStep_archived (cfg : Config) (genCode : Nat → String)
    (gt : Nat → ℚ) (s : LoopState) :
    (genStep cfg genCode gt s).archived = s.archived := rfl

@[simp] theorem genStep_genIssueTotals (cfg : Config) (genCode : Nat → String)
    (gt : Nat → ℚ) (s : LoopState) :
    (genStep cfg genCode gt s).genIssueTotals =
      s.genIssueTotals ++ [s.total_gen_time] := rfl

/-! ## Claim C5: success classification and the first-success scenario -/

/-- Claim C5: a candidate run is classified as success exactly when the
interpreter subprocess exits with status zero; and when the first candidate's
execution exits zero, the whole run stops in the terminal `succeeded` state
after exactly one generation call and one execution call, with no archive
copy created. -/
theorem C5_success_iff_exit_zero (cfg : Config) (exec : Nat → ExecOutcome)
    (genCode : Nat → String) (gt : Nat → ℚ) (fs0 : FS)
    (h1 : (exec 1).rc = 0) :
    (∀ (cfg' : Config) (res : ExecOutcome) (code : String) (a : Nat) (fs : FS),
      (test_code cfg' res code a fs).1.1 = true ↔ res.rc = 0) ∧
    (runProgram cfg exec genCode gt fs0).map
        (fun p => (p.1, p.2.genCalls, p.2.execCalls, p.2.archived)) =
      some (.succeeded, 1, 1, ([] : List String)) := by
  constructor
  · intro cfg' res code a fs
    rw [test_code_success]
    exact beq_iff_eq
  · rw [runProgram, runLoop_succ_eq]
    rw [test_code_success, if_pos (by simp [h1])]
    simp

theorem C5_success_iff_exit_zero_witness :
    (((fun _ => (⟨0, "ok", ""⟩ : ExecOutcome)) 1).rc = 0) ∧
    ((∀ (cfg' : Config) (res : ExecOutcome) (code : String) (a : Nat) (fs : FS),
      (test_code cfg' res code a fs).1.1 = true ↔ res.rc = 0) ∧
    (runProgram ⟨3, 1000, "foo.py", "foo", true⟩
        (fun _ => (⟨0, "ok", ""⟩ : ExecOutcome)) (fun _ => "print(1)")
        (fun _ => 1) (fun _ => none)).map
        (fun p => (p.1, p.2.genCalls, p.2.execCalls, p.2.archived)) =
      some (.succeeded, 1, 1, ([] : List String))) :=
  ⟨rfl, C5_success_iff_exit_zero _ _ _ _ _ rfl⟩

/-! ## The master invariant of the refinement loop -/

/-- Distinctness of the file names touched by one run: the artifact, the
scratch file and the archive names for the attempt indices of the run do not
collide.  (In the source this holds because archive names append a digit
suffix to the artifact's base name; here it is an explicit decidable
hypothesis on the configuration.) -/
def NamesOk (cfg : Config) : Prop :=
  cfg.source_file ≠ tempName ∧
  (∀ i, i < cfg.max_attempts + 2 →
    archiveName cfg i ≠ cfg.source_file ∧ archiveName cfg i ≠ tempName) ∧
  ∀ i, i < cfg.max_attempts + 2 → ∀ j, j < cfg.max_attempts + 2 →
    archiveName cfg i = archiveName cfg j → i = j

instance (cfg : Config) : Decidable (NamesOk cfg) := by
  unfold NamesOk
  infer_instance

theorem tail_append_singleton (l : List ℚ) (x : ℚ) (h : l ≠ []) :
    (l ++ [x]).tail = l.tail ++ [x] := by
  cases l with
  | nil => exact absurd rfl h
  | cons a as => simp

theorem execStep_fs_spec (cfg : Config) (exec : Nat → ExecOutcome)
    (genCode : Nat → String) (s : LoopState) (hn : NamesOk cfg)
    (ha1 : 1 ≤ s.attempts) (ha2 : s.attempts ≤ cfg.max_attempts)
    (hcode : s.code = genCode s.attempts)
    (hfsA : ∀ i, 1 ≤ i → i + 2 ≤ s.attempts →
      s.fs (archiveName cfg i) = some (genCode i))
    (hfsL : 2 ≤ s.attempts → s.fs cfg.source_file = some (genCode (s.attempts - 1)))
    (hghost : s.archived = (List.range' 1 (s.attempts - 1 - 1)).map (archiveName cfg)) :
    (∀ i, 1 ≤ i → i < s.attempts →
      (execStep cfg exec s).fs (archiveName cfg i) = some (genCode i)) ∧
    (execStep cfg exec s).fs cfg.source_file = some (genCode s.attempts) ∧
    (execStep cfg exec s).archived =
      (List.range' 1 (s.attempts - 1)).map (archiveName cfg) := by
  obtain ⟨hst, hnames, hinj⟩ := hn
  refine ⟨?_, ?_, ?_⟩
  · intro i hi1 hi2
    rw [execStep_fs]
    by_cases hia : i + 1 = s.attempts
    · have h2a : 2 ≤ s.attempts := by omega
      have hi' : i = s.attempts - 1 := by omega
      rw [hi', test_code_fs_archive cfg _ _ _ _ h2a
        (hnames (s.attempts - 1) (by omega)).1 (hnames (s.attempts - 1) (by omega)).2,
        hfsL h2a]
    · have hne : archiveName cfg i ≠ archiveName cfg (s.attempts - 1) := by
        intro he
        have := hinj i (by omega) (s.attempts - 1) (by omega) he
        omega
      rw [test_code_fs_other cfg _ _ _ _ _ (hnames i (by omega)).1
        (hnames i (by omega)).2 (Or.inr hne)]
      exact hfsA i hi1 (by omega)
  · rw [execStep_fs, test_code_fs_source cfg _ _ _ _ hst, hcode]
  · rw [execStep_archived, hghost]
    by_cases h1a : s.attempts > 1
    · rw [if_pos h1a]
      have hcalc : 1 + 1 * (s.attempts - 1 - 1) = s.attempts - 1 := by omega
      have hr : List.range' 1 (s.attempts - 1) =
          List.range' 1 (s.attempts - 1 - 1) ++ [s.attempts - 1] := by
        have hc := @List.range'_concat 1 1 (s.attempts - 1 - 1)
        rw [show s.attempts - 1 - 1 + 1 = s.attempts - 1 by omega, hcalc] at hc
        exact hc
      rw [hr, List.map_append]
      rfl
    · rw [if_neg h1a]
      have ha : s.attempts = 1 := by omega
      simp [ha]

theorem sum_range'_succ_gt (gt : Nat → ℚ) (g : Nat) :
    ((List.range' 1 (g + 1)).map gt).sum =
      ((List.range' 1 g).map gt).sum + gt (g + 1) := by
  have hc := @List.range'_concat 1 1 g
  rw [show 1 + 1 * g = g + 1 from by omega] at hc
  rw [hc, List.map_append, List.sum_append]
  simp

theorem runLoop_spec (cfg : Config) (exec : Nat → ExecOutcome)
    (genCode : Nat → String) (gt : Nat → ℚ) :
    ∀ fuel s, 1 ≤ s.attempts → s.attempts ≤ cfg.max_attempts →
      s.genCalls = s.attempts → s.execCalls = s.attempts - 1 →
      s.code = genCode s.attempts → s.genIssueTotals ≠ [] →
      (∀ t ∈ s.genIssueTotals.tail, t < cfg.max_time) →
      cfg.max_attempts + 2 ≤ fuel + s.attempts →
      s.total_gen_time = ((List.range' 1 s.genCalls).map gt).sum →
      (NamesOk cfg →
        (∀ i, 1 ≤ i → i + 2 ≤ s.attempts →
          s.fs (archiveName cfg i) = some (genCode i)) ∧
        (2 ≤ s.attempts → s.fs cfg.source_file = some (genCode (s.attempts - 1))) ∧
        s.archived = (List.range' 1 (s.attempts - 1 - 1)).map (archiveName cfg)) →
      ∃ out s', runLoop cfg exec genCode gt fuel s = some (out, s') ∧
        (∀ t ∈ s'.genIssueTotals.tail, t < cfg.max_time) ∧
        (out = .succeeded → ((exec s'.attempts).rc == 0) = true ∧
          s'.execCalls = s'.attempts) ∧
        (out = .failedMaxTime → cfg.max_time ≤ s'.total_gen_time ∧
          s'.execCalls = s'.attempts) ∧
        (out = .failedMaxAttempts → s'.attempts = cfg.max_attempts + 1 ∧
          s'.genCalls = cfg.max_attempts + 1 ∧ s'.execCalls = cfg.max_attempts) ∧
        1 ≤ s'.execCalls ∧
        s'.total_gen_time = ((List.range' 1 s'.genCalls).map gt).sum ∧
        s'.genCalls ≤ cfg.max_attempts + 1 ∧
        (NamesOk cfg →
          (∀ i, 1 ≤ i → i < s'.execCalls →
            s'.fs (archiveName cfg i) = some (genCode i)) ∧
          s'.fs cfg.source_file = some (genCode s'.execCalls) ∧
          s'.archived = (List.range' 1 (s'.execCalls - 1)).map (archiveName cfg)) := by
  intro fuel
  induction fuel with
  | zero =>
    intro s h1 h2 _ _ _ _ _ h8 _ _
    omega
  | succ fuel ih =>
    intro s h1 h2 h3 h4 h5 h6 h7 h8 htot h9
    rw [runLoop_succ_eq]
    have hec : (execStep cfg exec s).execCalls = s.attempts := by
      rw [execStep_execCalls, h4]
      omega
    by_cases hsucc :
        (test_code cfg (exec s.attempts) s.code s.attempts s.fs).1.1 = true
    · rw [if_pos hsucc]
      refine ⟨.succeeded, execStep cfg exec s, rfl, by simpa using h7, ?_,
        fun h => Outcome.noConfusion h, fun h => Outcome.noConfusion h,
        by rw [hec]; omega,
        by rw [execStep_total, execStep_genCalls]; exact htot,
        by rw [execStep_genCalls, h3]; omega, ?_⟩
      · intro _
        rw [test_code_success] at hsucc
        rw [execStep_attempts, hec]
        exact ⟨hsucc, rfl⟩
      · intro hn
        obtain ⟨eA, eL, eG⟩ := execStep_fs_spec cfg exec genCode s hn h1 h2 h5
          (h9 hn).1 (h9 hn).2.1 (h9 hn).2.2
        rw [hec]
        exact ⟨eA, eL, eG⟩
    · rw [if_neg hsucc]
      by_cases htime : cfg.max_time ≤ (execStep cfg exec s).total_gen_time
      · rw [if_pos htime]
        refine ⟨.failedMaxTime, execStep cfg exec s, rfl, by simpa using h7,
          fun h => Outcome.noConfusion h, ?_, fun h => Outcome.noConfusion h,
          by rw [hec]; omega,
          by rw [execStep_total, execStep_genCalls]; exact htot,
          by rw [execStep_genCalls, h3]; omega, ?_⟩
        · intro _
          rw [execStep_attempts, hec]
          exact ⟨htime, rfl⟩
        · intro hn
          obtain ⟨eA, eL, eG⟩ := execStep_fs_spec cfg exec genCode s hn h1 h2 h5
            (h9 hn).1 (h9 hn).2.1 (h9 hn).2.2
          rw [hec]
          exact ⟨eA, eL, eG⟩
      · rw [if_neg htime]
        have htlt : s.total_gen_time < cfg.max_time := by
          rw [execStep_total] at htime
          exact not_le.mp htime
        have htail : ∀ t ∈ (genStep cfg genCode gt
            (execStep cfg exec s)).genIssueTotals.tail, t < cfg.max_time := by
          rw [genStep_genIssueTotals, execStep_genIssueTotals, execStep_total,
            tail_append_singleton _ _ h6]
          intro t ht
          rcases List.mem_append.mp ht with h | h
          · exact h7 t h
          · rw [List.mem_singleton.mp h]
            exact htlt
        by_cases hatt : (genStep cfg genCode gt (execStep cfg exec s)).attempts >
            cfg.max_attempts
        · rw [if_pos hatt]
          rw [genStep_attempts, execStep_attempts] at hatt
          have haeq : s.attempts = cfg.max_attempts := by omega
          refine ⟨.failedMaxAttempts, _, rfl, htail,
            fun h => Outcome.noConfusion h, fun h => Outcome.noConfusion h,
            ?_, ?_, ?_, ?_, ?_⟩
          · intro _
            rw [genStep_attempts, execStep_attempts, genStep_genCalls,
              execStep_genCalls, genStep_execCalls, hec, h3, haeq]
            exact ⟨rfl, rfl, rfl⟩
          · rw [genStep_execCalls, hec]
            omega
          · rw [genStep_total, execStep_total, genStep_genCalls, execStep_genCalls,
              sum_range'_succ_gt gt s.genCalls, htot]
          · rw [genStep_genCalls, execStep_genCalls, h3, haeq]
          · intro hn
            obtain ⟨eA, eL, eG⟩ := execStep_fs_spec cfg exec genCode s hn h1 h2 h5
              (h9 hn).1 (h9 hn).2.1 (h9 hn).2.2
            rw [genStep_execCalls, genStep_fs, genStep_archived, hec]
            exact ⟨eA, eL, eG⟩
        · rw [if_neg hatt]
          rw [genStep_attempts, execStep_attempts] at hatt
          refine ih (genStep cfg genCode gt (execStep cfg exec s)) ?_ ?_ ?_ ?_ ?_ ?_
            htail ?_ ?_ ?_
          · rw [genStep_attempts, execStep_attempts]
            omega
          · rw [genStep_attempts, execStep_attempts]
            omega
          · rw [genStep_genCalls, execStep_genCalls, genStep_attempts,
              execStep_attempts, h3]
          · rw [genStep_execCalls, genStep_attempts, execStep_attempts, hec]
            omega
          · rw [genStep_code, genStep_attempts, execStep_attempts,
              execStep_genCalls, h3]
          · rw [genStep_genIssueTotals]
            simp
          · rw [genStep_attempts, execStep_attempts]
            omega
          · rw [genStep_total, execStep_total, genStep_genCalls, execStep_genCalls,
              sum_range'_succ_gt gt s.genCalls, htot]
          · intro hn
            obtain ⟨eA, eL, eG⟩ := execStep_fs_spec cfg exec genCode s hn h1 h2 h5
              (h9 hn).1 (h9 hn).2.1 (h9 hn).2.2
            refine ⟨?_, ?_, ?_⟩
            · intro i hi1 hi2
              rw [genStep_attempts, execStep_attempts] at hi2
              rw [genStep_fs]
              exact eA i hi1 (by omega)
            · intro _
              rw [genStep_fs, genStep_attempts, execStep_attempts,
                show s.attempts + 1 - 1 = s.attempts from by omega]
              exact eL
            · rw [genStep_archived, genStep_attempts, execStep_attempts,
                show s.attempts + 1 - 1 - 1 = s.attempts - 1 from by omega]
              exact eG

/-! ## Concrete fixtures used by witnesses and counterexamples -/

/-- A well-formed configuration: three attempts, a large time budget. -/
def cfgA : Config := ⟨3, 1000, "foo.py", "foo", true⟩

/-- A configuration whose time budget is zero, which the config format
permits (`max_time` is a float ≥ 0). -/
def cfgZeroTime : Config := ⟨2, 0, "foo.py", "foo", true⟩

/-- An execution collaborator whose every run exits with status 1. -/
def execFail : Nat → ExecOutcome := fun _ => ⟨1, "", "Traceback"⟩

/-- A family of candidate texts, one per generation call. -/
def genCodeA : Nat → String := fun k => "print(" ++ toString k ++ ")"

/-- A generation-duration family: every call takes one second. -/
def gtOne : Nat → ℚ := fun _ => 1

/-- The empty file store. -/
def fsEmpty : FS := fun _ => none

/-! ## Claim C1: the dual termination policy -/

/-- Claim C1 (amended): for every run in which no execution succeeds, the
loop terminates in `failedMaxTime` or `failedMaxAttempts`.  On every failure
the time-budget check is evaluated strictly before the attempt-count check,
with equality to `max_time` counting as exceeding: every retry generation
call is issued at a moment when the cumulative generation time is still
strictly below `max_time` (the ghost trace `genIssueTotals.tail` records
those moments), a `failedMaxTime` exit has `max_time ≤ total_gen_time`, and a
`failedMaxAttempts` exit happens exactly when `attempts` first exceeds
`max_attempts`, after `max_attempts + 1` generation calls and `max_attempts`
execution calls.  Amendment: the initial generation call (recorded in the
trace at cumulative time `0`) is exempt from the no-generation-after-budget
guarantee, because it is issued unconditionally before any budget check. -/
theorem C1_time_before_attempts (cfg : Config) (exec : Nat → ExecOutcome)
    (genCode : Nat → String) (gt : Nat → ℚ) (fs0 : FS)
    (hm : 1 ≤ cfg.max_attempts) (hfail : ∀ a, (exec a).rc ≠ 0) :
    ∃ out s', runProgram cfg exec genCode gt fs0 = some (out, s') ∧
      (out = .failedMaxTime ∨ out = .failedMaxAttempts) ∧
      (∀ t ∈ s'.genIssueTotals.tail, t < cfg.max_time) ∧
      (out = .failedMaxTime → cfg.max_time ≤ s'.total_gen_time) ∧
      (out = .failedMaxAttempts → s'.attempts = cfg.max_attempts + 1 ∧
        s'.genCalls = cfg.max_attempts + 1 ∧ s'.execCalls = cfg.max_attempts) := by
  obtain ⟨out, s', hrun, htail, hsc, htm, hma, _, _, _, _⟩ :=
    runLoop_spec cfg exec genCode gt (cfg.max_attempts + 1)
      { code := genCode 1, attempts := 1, total_gen_time := gt 1, fs := fs0,
        genCalls := 1, execCalls := 0, archived := [], genIssueTotals := [0] }
      (le_refl 1) hm rfl rfl rfl (by simp) (by simp)
      (by show cfg.max_attempts + 2 ≤ cfg.max_attempts + 1 + 1; omega) (by simp)
      (fun _ => ⟨fun i hi1 hi2 => absurd hi2 (by show ¬ (i + 2 ≤ 1); omega),
        fun h => absurd h (by show ¬ (2 ≤ 1); omega), rfl⟩)
  refine ⟨out, s', by rw [runProgram]; exact hrun, ?_, htail,
    fun h => (htm h).1, hma⟩
  cases out with
  | succeeded =>
    have hz : (exec s'.attempts).rc = 0 := by simpa using (hsc rfl).1
    exact absurd hz (hfail s'.attempts)
  | failedMaxTime => exact Or.inl rfl
  | failedMaxAttempts => exact Or.inr rfl

theorem C1_time_before_attempts_witness :
    (1 ≤ cfgA.max_attempts) ∧ (∀ a, (execFail a).rc ≠ 0) ∧
    (∃ out s', runProgram cfgA execFail genCodeA gtOne fsEmpty = some (out, s') ∧
      (out = .failedMaxTime ∨ out = .failedMaxAttempts) ∧
      (∀ t ∈ s'.genIssueTotals.tail, t < cfgA.max_time) ∧
      (out = .failedMaxTime → cfgA.max_time ≤ s'.total_gen_time) ∧
      (out = .failedMaxAttempts → s'.attempts = cfgA.max_attempts + 1 ∧
        s'.genCalls = cfgA.max_attempts + 1 ∧ s'.execCalls = cfgA.max_attempts)) :=
  ⟨by decide, fun _ => (by decide : (1 : Int) ≠ 0),
    C1_time_before_attempts cfgA execFail genCodeA gtOne fsEmpty
      (by decide) (fun _ => (by decide : (1 : Int) ≠ 0))⟩

/-- Claim C1 counterexample: with `max_time = 0` — a value the recognized
configuration format permits — the time budget is already reached (by the
claim's own equality-counts-as-exceeding convention) before any time is
spent, yet the initial generation call is still issued: the ghost trace shows
one generation call, issued at cumulative time `0`, which is not strictly
below `max_time`.  This refutes the clause "no generation call is issued
after the time budget is already reached" as universally stated. -/
theorem C1_counterexample :
    (runProgram cfgZeroTime execFail genCodeA gtOne fsEmpty).map
        (fun p => (p.1, p.2.genIssueTotals, p.2.genCalls)) =
      some (.failedMaxTime, [0], 1) ∧
    ¬ ∀ t ∈ ([0] : List ℚ), t < cfgZeroTime.max_time := by
  refine ⟨by decide, ?_⟩
  intro h
  exact absurd (h 0 (by simp)) (by decide)

/-! ## Claim C2: the max-attempts scenario -/

/-- Claim C2 (amended): with `max_attempts = 3`, `max_time = 1000`, every
execution failing, and generation durations small enough that the time budget
is never reached, the loop stops in the `failedMaxAttempts` terminal state
after exactly 3 execution calls — but after exactly 4 generation calls, not
3: after the third failed execution the source builds a repair prompt and
issues one more generation call before the attempt check fires, so the last
candidate is generated but never executed. -/
theorem C2_three_attempts_four_generations (sf bn : String) (flag : Bool)
    (exec : Nat → ExecOutcome) (genCode : Nat → String) (gt : Nat → ℚ)
    (fs0 : FS) (hfail : ∀ a, (exec a).rc ≠ 0) (hgt : ∀ k, gt k ≤ 200) :
    (runProgram ⟨3, 1000, sf, bn, flag⟩ exec genCode gt fs0).map
        (fun p => (p.1, p.2.genCalls, p.2.execCalls)) =
      some (.failedMaxAttempts, 4, 3) := by
  obtain ⟨out, s', hrun, _, hsc, htm, hma, _, htot', hgle, _⟩ :=
    runLoop_spec ⟨3, 1000, sf, bn, flag⟩ exec genCode gt
      ((⟨3, 1000, sf, bn, flag⟩ : Config).max_attempts + 1)
      { code := genCode 1, attempts := 1, total_gen_time := gt 1, fs := fs0,
        genCalls := 1, execCalls := 0, archived := [], genIssueTotals := [0] }
      (le_refl 1) (by show 1 ≤ 3; omega) rfl rfl rfl (by simp) (by simp)
      (by show 3 + 2 ≤ 3 + 1 + 1; omega) (by simp)
      (fun _ => ⟨fun i hi1 hi2 => absurd hi2 (by show ¬ (i + 2 ≤ 1); omega),
        fun h => absurd h (by show ¬ (2 ≤ 1); omega), rfl⟩)
  cases out with
  | succeeded =>
    have hz : (exec s'.attempts).rc = 0 := by simpa using (hsc rfl).1
    exact absurd hz (hfail s'.attempts)
  | failedMaxTime =>
    exfalso
    have h1000 : (1000 : ℚ) ≤ s'.total_gen_time := by simpa using (htm rfl).1
    have hsum : s'.total_gen_time ≤ (s'.genCalls : ℚ) * 200 := by
      rw [htot']
      have hb : ∀ x ∈ (List.range' 1 s'.genCalls).map gt, x ≤ (200 : ℚ) := by
        intro x hx
        obtain ⟨k, _, rfl⟩ := List.mem_map.mp hx
        exact hgt k
      have hle := List.sum_le_card_nsmul _ (200 : ℚ) hb
      simpa [List.length_range', nsmul_eq_mul] using hle
    have hg4 : s'.genCalls ≤ 4 := by simpa using hgle
    have hg4q : (s'.genCalls : ℚ) ≤ 4 := by exact_mod_cast hg4
    have hmul : (s'.genCalls : ℚ) * 200 ≤ 4 * 200 := by nlinarith
    linarith
  | failedMaxAttempts =>
    obtain ⟨_, hg, he⟩ := hma rfl
    have hg4 : s'.genCalls = 4 := by simpa using hg
    have he3 : s'.execCalls = 3 := by simpa using he
    rw [runProgram, hrun]
    simp [hg4, he3]

theorem C2_three_attempts_four_generations_witness :
    (∀ a, (execFail a).rc ≠ 0) ∧ (∀ k, gtOne k ≤ 200) ∧
    ((runProgram ⟨3, 1000, "foo.py", "foo", true⟩ execFail genCodeA gtOne
        fsEmpty).map (fun p => (p.1, p.2.genCalls, p.2.execCalls)) =
      some (.failedMaxAttempts, 4, 3)) :=
  ⟨fun _ => (by decide : (1 : Int) ≠ 0), fun _ => (by decide : (1 : ℚ) ≤ 200),
    C2_three_attempts_four_generations "foo.py" "foo" true execFail genCodeA
      gtOne fsEmpty (fun _ => (by decide : (1 : Int) ≠ 0))
      (fun _ => (by decide : (1 : ℚ) ≤ 200))⟩

/-- Claim C2 counterexample: in the concrete scenario (`max_attempts = 3`,
`max_time = 1000`, every execution exits 1, every generation takes one
second) the run stops in `failedMaxAttempts` after 3 execution calls but 4
generation calls, so the claimed count of exactly 3 generation calls is
false. -/
theorem C2_counterexample :
    (runProgram cfgA execFail genCodeA gtOne fsEmpty).map
        (fun p => (p.1, p.2.genCalls, p.2.execCalls)) =
      some (.failedMaxAttempts, 4, 3) ∧
    ¬ (runProgram cfgA execFail genCodeA gtOne fsEmpty).map
        (fun p => (p.1, p.2.genCalls, p.2.execCalls)) =
      some (.failedMaxAttempts, 3, 3) := by
  have hmain : (runProgram cfgA execFail genCodeA gtOne fsEmpty).map
      (fun p => (p.1, p.2.genCalls, p.2.execCalls)) =
      some (.failedMaxAttempts, 4, 3) := by
    obtain ⟨out, s', hrun, _, hsc, htm, hma, _, htot', hgle, _⟩ :=
      runLoop_spec cfgA execFail genCodeA gtOne (cfgA.max_attempts + 1)
        { code := genCodeA 1, attempts := 1, total_gen_time := gtOne 1,
          fs := fsEmpty, genCalls := 1, execCalls := 0, archived := [],
          genIssueTotals := [0] }
        (by decide) (by decide) rfl rfl rfl (by simp) (by simp)
        (by show cfgA.max_attempts + 2 ≤ cfgA.max_attempts + 1 + 1; omega)
        (by simp)
        (fun _ => ⟨fun i hi1 hi2 => absurd hi2 (by show ¬ (i + 2 ≤ 1); omega),
          fun h => absurd h (by show ¬ (2 ≤ 1); omega), rfl⟩)
    cases out with
    | succeeded =>
      have hz : (execFail s'.attempts).rc = 0 := by simpa using (hsc rfl).1
      exact absurd hz (by simp [execFail])
    | failedMaxTime =>
      exfalso
      have h1000 : (1000 : ℚ) ≤ s'.total_gen_time := by
        simpa [cfgA] using (htm rfl).1
      have hsum : s'.total_gen_time ≤ (s'.genCalls : ℚ) * 200 := by
        rw [htot']
        have hb : ∀ x ∈ (List.range' 1 s'.genCalls).map gtOne, x ≤ (200 : ℚ) := by
          intro x hx
          obtain ⟨k, _, rfl⟩ := List.mem_map.mp hx
          norm_num [gtOne]
        have hle := List.sum_le_card_nsmul _ (200 : ℚ) hb
        simpa [List.length_range', nsmul_eq_mul] using hle
      have hg4 : s'.genCalls ≤ 4 := by simpa [cfgA] using hgle
      have hg4q : (s'.genCalls : ℚ) ≤ 4 := by exact_mod_cast hg4
      have hmul : (s'.genCalls : ℚ) * 200 ≤ 4 * 200 := by nlinarith
      linarith
    | failedMaxAttempts =>
      obtain ⟨_, hg, he⟩ := hma rfl
      have hg4 : s'.genCalls = 4 := by simpa [cfgA] using hg
      have he3 : s'.execCalls = 3 := by simpa [cfgA] using he
      rw [runProgram, hrun]
      simp [hg4, he3]
  refine ⟨hmain, ?_⟩
  rw [hmain]
  simp

/-! ## Claim C4: archiving -/

/-- Claim C4: with the run's file names distinct (artifact, scratch file,
numbered archives), every run terminates in a state in which the ghost
archive trace is exactly one archive per execution `k ≥ 2`, in order, named
with numeric suffix `k - 1`; the first attempt creates no archive; each
archive still holds, at the end of the run, the candidate of the attempt it
saved (so an archive is never overwritten after its creation, and each was
copied from the artifact before the overwrite); and the live artifact holds
the most recently executed candidate.  Moreover, after every single
`test_code` call the live artifact holds exactly the candidate just
written. -/
theorem C4_archive_per_attempt (cfg : Config) (exec : Nat → ExecOutcome)
    (genCode : Nat → String) (gt : Nat → ℚ) (fs0 : FS)
    (hm : 1 ≤ cfg.max_attempts) (hn : NamesOk cfg) :
    (∀ (res : ExecOutcome) (code : String) (a : Nat) (fs : FS),
      (test_code cfg res code a fs).2 cfg.source_file = some code) ∧
    ∃ out s', runProgram cfg exec genCode gt fs0 = some (out, s') ∧
      1 ≤ s'.execCalls ∧
      s'.archived = (List.range' 1 (s'.execCalls - 1)).map (archiveName cfg) ∧
      (∀ i, 1 ≤ i → i < s'.execCalls →
        s'.fs (archiveName cfg i) = some (genCode i)) ∧
      s'.fs cfg.source_file = some (genCode s'.execCalls) := by
  refine ⟨fun res code a fs => test_code_fs_source cfg res code a fs hn.1, ?_⟩
  obtain ⟨out, s', hrun, _, _, _, _, hex, _, _, hfs⟩ :=
    runLoop_spec cfg exec genCode gt (cfg.max_attempts + 1)
      { code := genCode 1, attempts := 1, total_gen_time := gt 1, fs := fs0,
        genCalls := 1, execCalls := 0, archived := [], genIssueTotals := [0] }
      (le_refl 1) hm rfl rfl rfl (by simp) (by simp)
      (by show cfg.max_attempts + 2 ≤ cfg.max_attempts + 1 + 1; omega) (by simp)
      (fun _ => ⟨fun i hi1 hi2 => absurd hi2 (by show ¬ (i + 2 ≤ 1); omega),
        fun h => absurd h (by show ¬ (2 ≤ 1); omega), rfl⟩)
  obtain ⟨fA, fL, fG⟩ := hfs hn
  exact ⟨out, s', by rw [runProgram]; exact hrun, hex, fG, fA, fL⟩

theorem C4_archive_per_attempt_witness :
    (1 ≤ cfgA.max_attempts) ∧ NamesOk cfgA ∧
    ((∀ (res : ExecOutcome) (code : String) (a : Nat) (fs : FS),
      (test_code cfgA res code a fs).2 cfgA.source_file = some code) ∧
    ∃ out s', runProgram cfgA execFail genCodeA gtOne fsEmpty = some (out, s') ∧
      1 ≤ s'.execCalls ∧
      s'.archived = (List.range' 1 (s'.execCalls - 1)).map (archiveName cfgA) ∧
      (∀ i, 1 ≤ i → i < s'.execCalls →
        s'.fs (archiveName cfgA i) = some (genCodeA i)) ∧
      s'.fs cfgA.source_file = some (genCodeA s'.execCalls)) :=
  ⟨by decide, by decide,
    C4_archive_per_attempt cfgA execFail genCodeA gtOne fsEmpty
      (by decide) (by decide)⟩
